import Mathlib

/-!
Verification of the monitoring reverse proxy in `ollama_monitoring_proxy_fixed.py`
(and, where claims reference it, `ollama_monitoring_proxy.py`).

The embedding is shallow: each Python function that the claims speak about is
translated into a Lean function over explicit data.  JSON response objects are
modelled as records of optional fields (absence = the key is missing), Python
truthiness of an integer field is `≠ 0`, of a string `≠ ""`.  Durations and
timestamps are rationals (the float arithmetic involved is exact division by
`1e9`, exactly representable on the inputs the claims mention).  Metric
mutations are modelled as an ordered trace of `MetricEvent`s emitted by the
handler; the shared admission/queue state is modelled separately as a labelled
transition system.
-/

/-- Byte strings are modelled as lists of naturals. -/
abbrev Bytes := List Nat

/-- An upstream (Ollama) response object, as seen after `json.loads`:
each metric field is optional, mirroring key presence in the dict.
`response_text` models the `response` key, `done` the truthiness of
`.get('done')`. -/
structure OllamaResponse where
  prompt_eval_count : Option Int
  eval_count : Option Int
  prompt_eval_duration : Option Int
  eval_duration : Option Int
  load_duration : Option Int
  response_text : Option String
  done : Bool
deriving DecidableEq, Repr

instance : Inhabited OllamaResponse := ⟨⟨none, none, none, none, none, none, false⟩⟩

/-- Python truthiness of an optional integer field (`dict.get(k)` is truthy
iff the key is present with a non-zero value). -/
def optIntTruthy : Option Int → Bool
  | some n => n ≠ 0
  | none => false

/-- Python truthiness of an optional string field. -/
def optStrTruthy : Option String → Bool
  | some s => s ≠ ""
  | none => false

/-- One mutation of the Prometheus metrics registry, with its labels. -/
inductive MetricEvent
  | promptTokensInc (model : String) (n : Int)
  | generatedTokensInc (model : String) (n : Int)
  | tokensPerSecondObserve (model : String) (v : ℚ)
  | tokensPerSecondPhaseObserve (model : String) (phase : String) (v : ℚ)
  | modelLoadDurationObserve (model : String) (v : ℚ)
  | contextLengthObserve (model : String) (v : ℚ)
  | timeToFirstTokenObserve (model : String) (v : ℚ)
  | queueWaitObserve (model : String) (v : ℚ)
  | activeRequestsInc (model : String)
  | activeRequestsDec (model : String)
  | errorCountInc (model : String) (errorType : String)
  | requestDurationObserve (method : String) (endpoint : String) (model : String)
      (routing : String) (v : ℚ)
  | requestCountInc (method : String) (endpoint : String) (model : String)
      (status : Nat) (routing : String)
  | generateLatencyObserve (model : String) (streaming : Bool) (v : ℚ)
  | chatLatencyObserve (model : String) (streaming : Bool) (v : ℚ)
  | tagsLatencyObserve (v : ℚ)
  | showLatencyObserve (model : String) (v : ℚ)
deriving DecidableEq, Repr

/-- `_extract_response_metrics` of `ollama_monitoring_proxy_fixed.py`
(lines 426-451), as the trace of registry mutations it performs, in order. -/
def extract_response_metrics (response_json : OllamaResponse) (model : String) :
    List MetricEvent :=
  (match response_json.prompt_eval_count with
   | some n => [.promptTokensInc model n]
   | none => []) ++
  (match response_json.eval_count with
   | some n => [.generatedTokensInc model n]
   | none => []) ++
  (if response_json.eval_duration.isSome && optIntTruthy response_json.eval_count then
     let eval_duration_s : ℚ := (response_json.eval_duration.getD 0 : ℚ) / 1000000000
     if 0 < eval_duration_s then
       [.tokensPerSecondObserve model ((response_json.eval_count.getD 0 : ℚ) / eval_duration_s)]
     else []
   else []) ++
  (match response_json.load_duration with
   | some d => [.modelLoadDurationObserve model ((d : ℚ) / 1000000000)]
   | none => []) ++
  (match response_json.prompt_eval_count with
   | some n => [.contextLengthObserve model (n : ℚ)]
   | none => [])

/-- `_extract_response_metrics` of `ollama_monitoring_proxy.py`
(lines 277-307): the same extraction, but with per-phase tokens-per-second
histograms and a context-length observation of prompt + generated tokens
guarded by positivity. -/
def extract_response_metrics_orig (response_json : OllamaResponse) (model : String) :
    List MetricEvent :=
  (match response_json.prompt_eval_count with
   | some n => [.promptTokensInc model n]
   | none => []) ++
  (match response_json.eval_count with
   | some n => [.generatedTokensInc model n]
   | none => []) ++
  (if response_json.prompt_eval_duration.isSome &&
      optIntTruthy response_json.prompt_eval_count then
     let d : ℚ := (response_json.prompt_eval_duration.getD 0 : ℚ) / 1000000000
     if 0 < d then
       [.tokensPerSecondPhaseObserve model "prompt_eval"
          ((response_json.prompt_eval_count.getD 0 : ℚ) / d)]
     else []
   else []) ++
  (if response_json.eval_duration.isSome && optIntTruthy response_json.eval_count then
     let d : ℚ := (response_json.eval_duration.getD 0 : ℚ) / 1000000000
     if 0 < d then
       [.tokensPerSecondPhaseObserve model "eval"
          ((response_json.eval_count.getD 0 : ℚ) / d)]
     else []
   else []) ++
  (match response_json.load_duration with
   | some d => [.modelLoadDurationObserve model ((d : ℚ) / 1000000000)]
   | none => []) ++
  (let total_context : Int :=
     response_json.prompt_eval_count.getD 0 + response_json.eval_count.getD 0
   if 0 < total_context then [.contextLengthObserve model (total_context : ℚ)] else [])

/-- The values observed into the (unphased) tokens-per-second histogram for
a given model, in trace order. -/
def tpsObs (model : String) (events : List MetricEvent) : List ℚ :=
  events.filterMap fun e =>
    match e with
    | .tokensPerSecondObserve m v => if m = model then some v else none
    | _ => none

/-- The values observed into the context-length histogram for a given model. -/
def contextObs (model : String) (events : List MetricEvent) : List ℚ :=
  events.filterMap fun e =>
    match e with
    | .contextLengthObserve m v => if m = model then some v else none
    | _ => none

/-- The values observed into the time-to-first-token histogram for a model. -/
def ttftObs (model : String) (events : List MetricEvent) : List ℚ :=
  events.filterMap fun e =>
    match e with
    | .timeToFirstTokenObserve m v => if m = model then some v else none
    | _ => none

/-- Whether `needle` occurs as a contiguous run inside the character list. -/
def subOccurs (needle : List Char) : List Char → Bool
  | [] => needle.isEmpty
  | c :: t => needle.isPrefixOf (c :: t) || subOccurs needle t

/-- Python's `needle in hay` for strings. -/
def strContains (hay needle : String) : Bool := subOccurs needle.data hay.data

/-- `_record_endpoint_latency` of the fixed proxy (lines 646-657): substring
dispatch of the path to one of four endpoint latency histograms; the tags
histogram carries no model label. -/
def record_endpoint_latency (path : String) (duration : ℚ) (model : String)
    (streaming : Bool) : List MetricEvent :=
  if strContains path "/api/generate" then [.generateLatencyObserve model streaming duration]
  else if strContains path "/api/chat" then [.chatLatencyObserve model streaming duration]
  else if strContains path "/api/tags" then [.tagsLatencyObserve duration]
  else if strContains path "/api/show" then [.showLatencyObserve model duration]
  else []

/-- One chunk read from the upstream streaming body: its raw bytes, the
result of attempting `json.loads` on it (`none` = parse failure), and the
`time.time()` value at which it is processed. -/
structure Chunk where
  raw : Bytes
  parsed : Option OllamaResponse
  arrival : ℚ
deriving DecidableEq, Repr

/-- Scratch state of the `_handle_streaming_response` loop: the
`first_token_time` local, the bytes written to the client so far, and the
metric mutations performed so far. -/
structure StreamState where
  first_token_time : Option ℚ
  written : List Bytes
  events : List MetricEvent
deriving DecidableEq, Repr

/-- One iteration of `async for line in resp.content` in
`_handle_streaming_response` (fixed proxy, lines 386-402): a non-empty line
is written to the client first, then parsed; on parse success the
time-to-first-token observation fires at the first chunk with a truthy
`response` field, and a truthy `done` field triggers final metric
extraction.  Parse failure leaves everything but the written bytes
untouched. -/
def streamChunkStep (model : String) (start_time : ℚ) (st : StreamState) (c : Chunk) :
    StreamState :=
  if c.raw = [] then st
  else
    let st1 : StreamState := { st with written := st.written ++ [c.raw] }
    match c.parsed with
    | none => st1
    | some chunk =>
      let st2 : StreamState :=
        if st1.first_token_time = none ∧ optStrTruthy chunk.response_text then
          { st1 with first_token_time := some (c.arrival - start_time),
                     events := st1.events ++
                       [.timeToFirstTokenObserve model (c.arrival - start_time)] }
        else st1
      if chunk.done then
        { st2 with events := st2.events ++ extract_response_metrics chunk model }
      else st2

/-- `_handle_streaming_response` of the fixed proxy (lines 374-424): the
chunks read before any mid-stream failure are processed by the loop; a
mid-stream failure (`streamError`) increments the streaming_error counter;
afterwards the request duration, endpoint latency and request counter are
recorded and the stream is finalized. -/
def handle_streaming_response (status : Nat) (chunks : List Chunk) (streamError : Bool)
    (model : String) (start_time end_time : ℚ) (path : String) (routing : String) :
    StreamState :=
  let st := chunks.foldl (streamChunkStep model start_time) ⟨none, [], []⟩
  let st := if streamError then
      { st with events := st.events ++ [.errorCountInc model "streaming_error"] }
    else st
  let duration := end_time - start_time
  { st with events := st.events ++
      [.requestDurationObserve "POST" path model routing duration] ++
      record_endpoint_latency path duration model true ++
      [.requestCountInc "POST" path model status routing] }

/-- The loop condition under which a chunk fires the time-to-first-token
observation (when no earlier chunk has): non-empty, parses, truthy partial
`response` text. -/
def isFirstTokenChunk (c : Chunk) : Bool :=
  !c.raw.isEmpty && (match c.parsed with
    | some j => optStrTruthy j.response_text
    | none => false)

/-- The loop condition under which a chunk triggers final metric extraction. -/
def isDoneChunk (c : Chunk) : Bool :=
  !c.raw.isEmpty && (match c.parsed with
    | some j => j.done
    | none => false)

/-- The parsed record of a chunk (meaningful when `parsed` is `some`). -/
def chunkJson (c : Chunk) : OllamaResponse := c.parsed.getD default

/-- The metric extraction / token-accounting events, as opposed to gauge,
latency, error and lifecycle events. -/
def isExtractEvent : MetricEvent → Bool
  | .promptTokensInc _ _ => true
  | .generatedTokensInc _ _ => true
  | .tokensPerSecondObserve _ _ => true
  | .tokensPerSecondPhaseObserve _ _ _ => true
  | .modelLoadDurationObserve _ _ => true
  | .contextLengthObserve _ _ => true
  | _ => false

/-- C1: a tokens-per-second observation is made iff `eval_duration` is present,
`eval_count` is present and non-zero, and the duration converted to seconds is
strictly positive; the single observed value is
`eval_count / (eval_duration / 1e9)`. -/
theorem tokens_per_second_iff (r : OllamaResponse) (model : String) :
    tpsObs model (extract_response_metrics r model) =
      if r.eval_duration.isSome = true ∧ optIntTruthy r.eval_count = true ∧
         (0 : ℚ) < (r.eval_duration.getD 0 : ℚ) / 1000000000 then
        [(r.eval_count.getD 0 : ℚ) / ((r.eval_duration.getD 0 : ℚ) / 1000000000)]
      else [] := by
  unfold extract_response_metrics tpsObs
  rcases r with ⟨pec, ec, ped, ed, ld, rt, dn⟩
  rcases ed with _ | d <;> rcases ec with _ | c <;> rcases pec with _ | p <;>
    rcases ld with _ | l <;>
    simp [optIntTruthy, List.filterMap_append] <;>
    by_cases hc : c = 0 <;>
    by_cases hd : (0 : ℤ) < d <;>
    simp [hc, hd]

/-- The spec's non-streaming scenario: eval_count 50 over one second gives a
single observation of 50. -/
lemma tokens_per_second_scenario :
    tpsObs "m1" (extract_response_metrics
      ⟨none, some 50, none, some 1000000000, none, none, true⟩ "m1") = [50] := by
  norm_num [extract_response_metrics, tpsObs, optIntTruthy, List.filterMap_cons]

/-- C8 counterexample: in `ollama_monitoring_proxy_fixed.py`, a response with
`prompt_eval_count = 5` and `eval_count = 7` (both token counts available)
leads to a context-length observation of `5`, not the total `5 + 7 = 12`. -/
theorem context_length_counterexample :
    contextObs "m1" (extract_response_metrics
      ⟨some 5, some 7, none, none, none, none, true⟩ "m1") = [5] ∧ (5 : ℚ) ≠ 5 + 7 := by
  constructor
  · norm_num [extract_response_metrics, contextObs, optIntTruthy,
      List.filterMap_cons, List.filterMap_append]
  · norm_num

/-- C8 amended: `ollama_monitoring_proxy.py` observes prompt + generated
tokens into the context-length histogram, and only when the total is positive;
`ollama_monitoring_proxy_fixed.py` instead observes `prompt_eval_count` alone,
whenever that field is present. -/
theorem context_length_amended (r : OllamaResponse) (model : String) :
    contextObs model (extract_response_metrics_orig r model) =
      (if 0 < r.prompt_eval_count.getD 0 + r.eval_count.getD 0 then
         [((r.prompt_eval_count.getD 0 + r.eval_count.getD 0 : Int) : ℚ)]
       else []) ∧
    contextObs model (extract_response_metrics r model) =
      (match r.prompt_eval_count with
       | some n => [(n : ℚ)]
       | none => []) := by
  constructor
  · unfold extract_response_metrics_orig contextObs
    rcases r with ⟨pec, ec, ped, ed, ld, rt, dn⟩
    rcases pec with _ | p <;> rcases ec with _ | c <;> rcases ld with _ | l <;>
      simp [optIntTruthy, List.filterMap_append] <;>
      (try split_ifs) <;> (try simp) <;> (try aesop)
  · unfold extract_response_metrics contextObs
    rcases r with ⟨pec, ec, ped, ed, ld, rt, dn⟩
    rcases pec with _ | p <;> rcases ec with _ | c <;> rcases ld with _ | l <;>
      simp [optIntTruthy, List.filterMap_append] <;>
      (try split_ifs) <;> (try simp) <;> (try aesop)

/-- Every event emitted by the fixed extractor is a token/throughput/context
observation labelled with the given model. -/
lemma mem_extract (r : OllamaResponse) (m : String) :
    ∀ e ∈ extract_response_metrics r m,
      (∃ n, e = .promptTokensInc m n) ∨ (∃ n, e = .generatedTokensInc m n) ∨
      (∃ v, e = .tokensPerSecondObserve m v) ∨
      (∃ v, e = .modelLoadDurationObserve m v) ∨
      (∃ v, e = .contextLengthObserve m v) := by
  intro e he
  unfold extract_response_metrics at he
  rcases r with ⟨pec, ec, ped, ed, ld, rt, dn⟩
  rcases pec with _ | p <;> rcases ec with _ | c <;> rcases ld with _ | l <;>
    rcases ed with _ | d <;>
    simp [optIntTruthy] at he <;> (try split_ifs at he) <;> (try simp at he) <;> aesop

lemma ttftObs_extract (r : OllamaResponse) (m model : String) :
    ttftObs model (extract_response_metrics r m) = [] := by
  refine List.filterMap_eq_nil.mpr ?_
  intro e he
  rcases mem_extract r m e he with ⟨n, rfl⟩ | ⟨n, rfl⟩ | ⟨v, rfl⟩ | ⟨v, rfl⟩ | ⟨v, rfl⟩ <;> rfl

lemma filter_extract_self (r : OllamaResponse) (m : String) :
    (extract_response_metrics r m).filter isExtractEvent = extract_response_metrics r m := by
  refine List.filter_eq_self.mpr ?_
  intro e he
  rcases mem_extract r m e he with ⟨n, rfl⟩ | ⟨n, rfl⟩ | ⟨v, rfl⟩ | ⟨v, rfl⟩ | ⟨v, rfl⟩ <;> rfl

lemma ttftObs_latency (model : String) (path : String) (d : ℚ) (m : String) (s : Bool) :
    ttftObs model (record_endpoint_latency path d m s) = [] := by
  unfold record_endpoint_latency
  split_ifs <;> rfl

lemma filter_extract_latency (path : String) (d : ℚ) (m : String) (s : Bool) :
    (record_endpoint_latency path d m s).filter isExtractEvent = [] := by
  unfold record_endpoint_latency
  split_ifs <;> rfl

/-- The bytes a loop iteration writes: exactly the chunk's raw line when it
is non-empty, regardless of parse outcome. -/
lemma streamChunkStep_written (model : String) (ts : ℚ) (st : StreamState) (c : Chunk) :
    (streamChunkStep model ts st c).written =
      st.written ++ if c.raw.isEmpty then [] else [c.raw] := by
  unfold streamChunkStep
  rcases c with ⟨raw, parsed, arr⟩
  by_cases hr : raw = [] <;> rcases parsed with _ | j <;>
    simp [hr] <;> split_ifs <;> simp

/-- The `first_token_time` local after one iteration. -/
lemma streamChunkStep_ftt (model : String) (ts : ℚ) (st : StreamState) (c : Chunk) :
    (streamChunkStep model ts st c).first_token_time =
      if st.first_token_time = none ∧ isFirstTokenChunk c = true then
        some (c.arrival - ts)
      else st.first_token_time := by
  unfold streamChunkStep isFirstTokenChunk
  rcases c with ⟨raw, parsed, arr⟩
  by_cases hr : raw = [] <;> rcases parsed with _ | j <;>
    simp [hr] <;> split_ifs <;> simp_all

/-- The events appended by one iteration: a time-to-first-token observation
when the chunk is the first with partial text, then the final extraction when
the chunk is a done chunk. -/
lemma streamChunkStep_events (model : String) (ts : ℚ) (st : StreamState) (c : Chunk) :
    (streamChunkStep model ts st c).events =
      st.events ++
        (if st.first_token_time = none ∧ isFirstTokenChunk c = true then
           [.timeToFirstTokenObserve model (c.arrival - ts)]
         else []) ++
        (if isDoneChunk c then extract_response_metrics (chunkJson c) model else []) := by
  unfold streamChunkStep isFirstTokenChunk isDoneChunk chunkJson
  rcases c with ⟨raw, parsed, arr⟩
  by_cases hr : raw = [] <;> rcases parsed with _ | j <;>
    simp [hr] <;> split_ifs <;> simp_all

lemma ttftObs_append (m : String) (l₁ l₂ : List MetricEvent) :
    ttftObs m (l₁ ++ l₂) = ttftObs m l₁ ++ ttftObs m l₂ := by
  simp [ttftObs, List.filterMap_append]

lemma ttftObs_single (m : String) (v : ℚ) :
    ttftObs m [MetricEvent.timeToFirstTokenObserve m v] = [v] := by
  simp [ttftObs, List.filterMap_cons]

lemma ttftObs_nil (m : String) : ttftObs m [] = [] := rfl

lemma ttftObs_cons_ttft (m : String) (v : ℚ) (l : List MetricEvent) :
    ttftObs m (MetricEvent.timeToFirstTokenObserve m v :: l) = v :: ttftObs m l := by
  simp [ttftObs, List.filterMap_cons]

/-- The loop writes exactly the non-empty raw lines, in order. -/
lemma fold_written (model : String) (ts : ℚ) (chunks : List Chunk) (st : StreamState) :
    (chunks.foldl (streamChunkStep model ts) st).written =
      st.written ++ (chunks.filter fun c => !c.raw.isEmpty).map Chunk.raw := by
  induction chunks generalizing st with
  | nil => simp
  | cons c t ih =>
    rw [List.foldl_cons, ih, streamChunkStep_written]
    by_cases h : c.raw.isEmpty <;> simp [h, List.filter_cons]

/-- Dropping empty lines does not change the delivered byte sequence. -/
lemma join_written (chunks : List Chunk) :
    ((chunks.filter fun c => !c.raw.isEmpty).map Chunk.raw).join =
      (chunks.map Chunk.raw).join := by
  induction chunks with
  | nil => rfl
  | cons c t ih =>
    by_cases h : c.raw.isEmpty
    · have hr : c.raw = [] := by simpa using h
      simp [List.filter_cons, h, hr, ih]
    · simp [List.filter_cons, h, ih]

/-- A chunk that is empty or fails to parse changes neither the
`first_token_time` local nor the metric trace. -/
lemma streamChunkStep_skip (model : String) (ts : ℚ) (st : StreamState) (c : Chunk)
    (h : (!c.raw.isEmpty && c.parsed.isSome) = false) :
    (streamChunkStep model ts st c).first_token_time = st.first_token_time ∧
    (streamChunkStep model ts st c).events = st.events := by
  have hf : isFirstTokenChunk c = false := by
    rcases c with ⟨raw, parsed, arr⟩
    rcases parsed with _ | j <;> simp_all [isFirstTokenChunk]
  have hd : isDoneChunk c = false := by
    rcases c with ⟨raw, parsed, arr⟩
    rcases parsed with _ | j <;> simp_all [isDoneChunk]
  rw [streamChunkStep_ftt, streamChunkStep_events]
  simp [hf, hd]

/-- The loop's `first_token_time` and metric trace depend on the prior state
only through those two components, never through the written bytes. -/
lemma fold_key (model : String) (ts : ℚ) (chunks : List Chunk) (st₁ st₂ : StreamState)
    (h₁ : st₁.first_token_time = st₂.first_token_time) (h₂ : st₁.events = st₂.events) :
    (chunks.foldl (streamChunkStep model ts) st₁).first_token_time =
      (chunks.foldl (streamChunkStep model ts) st₂).first_token_time ∧
    (chunks.foldl (streamChunkStep model ts) st₁).events =
      (chunks.foldl (streamChunkStep model ts) st₂).events := by
  induction chunks generalizing st₁ st₂ with
  | nil => exact ⟨h₁, h₂⟩
  | cons c t ih =>
    have k₁ : (streamChunkStep model ts st₁ c).first_token_time =
        (streamChunkStep model ts st₂ c).first_token_time := by
      rw [streamChunkStep_ftt, streamChunkStep_ftt, h₁]
    have k₂ : (streamChunkStep model ts st₁ c).events =
        (streamChunkStep model ts st₂ c).events := by
      rw [streamChunkStep_events, streamChunkStep_events, h₁, h₂]
    exact ih _ _ k₁ k₂

/-- The metric trace of the loop equals the trace obtained from only the
non-empty, successfully parsed chunks: a parse failure affects no metric. -/
lemma fold_events_relevant (model : String) (ts : ℚ) (chunks : List Chunk)
    (st : StreamState) :
    ((chunks.filter fun c => !c.raw.isEmpty && c.parsed.isSome).foldl
        (streamChunkStep model ts) st).first_token_time =
      (chunks.foldl (streamChunkStep model ts) st).first_token_time ∧
    ((chunks.filter fun c => !c.raw.isEmpty && c.parsed.isSome).foldl
        (streamChunkStep model ts) st).events =
      (chunks.foldl (streamChunkStep model ts) st).events := by
  induction chunks generalizing st with
  | nil => exact ⟨rfl, rfl⟩
  | cons c t ih =>
    by_cases h : (!c.raw.isEmpty && c.parsed.isSome) = true
    · have hf : (c :: t).filter (fun c => !c.raw.isEmpty && c.parsed.isSome) =
          c :: t.filter (fun c => !c.raw.isEmpty && c.parsed.isSome) := by
        simp [List.filter_cons, h]
      rw [hf, List.foldl_cons, List.foldl_cons]
      exact ih _
    · have h' : (!c.raw.isEmpty && c.parsed.isSome) = false := by
        simpa using h
      obtain ⟨s₁, s₂⟩ := streamChunkStep_skip model ts st c h'
      have hf : (c :: t).filter (fun c => !c.raw.isEmpty && c.parsed.isSome) =
          t.filter (fun c => !c.raw.isEmpty && c.parsed.isSome) := by
        simp [List.filter_cons, h']
      rw [hf, List.foldl_cons]
      obtain ⟨k₁, k₂⟩ := fold_key model ts t st (streamChunkStep model ts st c) s₁.symm s₂.symm
      obtain ⟨i₁, i₂⟩ := ih st
      exact ⟨i₁.trans k₁, i₂.trans k₂⟩

/-- C2: streaming transparency.  The byte sequence delivered to the client
equals the byte sequence read from upstream, and the metric trace equals the
trace obtained from only the non-empty, successfully-parsed chunks — so a
chunk that is not valid JSON is still forwarded unchanged and affects no other
chunk's metric extraction. -/
theorem streaming_transparency (status : Nat) (chunks : List Chunk) (streamError : Bool)
    (model : String) (ts te : ℚ) (path routing : String) :
    (handle_streaming_response status chunks streamError model ts te path routing).written.join
      = (chunks.map Chunk.raw).join ∧
    (handle_streaming_response status chunks streamError model ts te path routing).events
      = (handle_streaming_response status
          (chunks.filter fun c => !c.raw.isEmpty && c.parsed.isSome)
          streamError model ts te path routing).events := by
  obtain ⟨k₁, k₂⟩ := fold_events_relevant model ts chunks ⟨none, [], []⟩
  unfold handle_streaming_response
  constructor
  · by_cases hE : streamError <;>
      simp [hE, fold_written, join_written]
  · by_cases hE : streamError <;> simp [hE, k₂]

/-- Once the first token has been seen, the loop never observes
time-to-first-token again. -/
lemma fold_ttft_some (model : String) (ts : ℚ) (chunks : List Chunk) (st : StreamState)
    (h : st.first_token_time ≠ none) :
    ttftObs model ((chunks.foldl (streamChunkStep model ts) st).events) =
      ttftObs model st.events := by
  induction chunks generalizing st with
  | nil => rfl
  | cons c t ih =>
    rw [List.foldl_cons]
    have hftt : (streamChunkStep model ts st c).first_token_time = st.first_token_time := by
      rw [streamChunkStep_ftt]
      simp [h]
    have hev : ttftObs model (streamChunkStep model ts st c).events =
        ttftObs model st.events := by
      rw [streamChunkStep_events]
      by_cases hd : isDoneChunk c <;>
        simp [h, hd, ttftObs_append, ttftObs_extract]
    rw [ih _ (by rw [hftt]; exact h), hev]

/-- Starting with no first token seen, the loop observes time-to-first-token
exactly at the first qualifying chunk (if any), with value
arrival time minus request start time. -/
lemma fold_ttft (model : String) (ts : ℚ) (chunks : List Chunk) (st : StreamState)
    (h : st.first_token_time = none) :
    ttftObs model ((chunks.foldl (streamChunkStep model ts) st).events) =
      ttftObs model st.events ++
        (match chunks.find? isFirstTokenChunk with
         | some c => [c.arrival - ts]
         | none => []) := by
  induction chunks generalizing st with
  | nil => simp
  | cons c t ih =>
    rw [List.foldl_cons]
    by_cases hc : isFirstTokenChunk c = true
    · have hftt : (streamChunkStep model ts st c).first_token_time =
          some (c.arrival - ts) := by
        rw [streamChunkStep_ftt]; simp [h, hc]
      have hev : ttftObs model (streamChunkStep model ts st c).events =
          ttftObs model st.events ++ [c.arrival - ts] := by
        rw [streamChunkStep_events]
        by_cases hd : isDoneChunk c <;>
          simp [h, hc, hd, ttftObs_append, ttftObs_extract, ttftObs_single, ttftObs_cons_ttft, ttftObs_nil]
      rw [fold_ttft_some model ts t _ (by rw [hftt]; exact Option.some_ne_none _), hev]
      simp [List.find?_cons, hc]
    · have hftt : (streamChunkStep model ts st c).first_token_time = none := by
        rw [streamChunkStep_ftt]; simp [h, hc]
      have hev : ttftObs model (streamChunkStep model ts st c).events =
          ttftObs model st.events := by
        rw [streamChunkStep_events]
        by_cases hd : isDoneChunk c <;>
          simp [h, hc, hd, ttftObs_append, ttftObs_extract]
      rw [ih _ hftt, hev]
      have : isFirstTokenChunk c = false := by simpa using hc
      simp [List.find?_cons, this]

/-- The extraction-kind events of the loop are exactly the extractions of the
done chunks, in order. -/
lemma fold_doneEvents (model : String) (ts : ℚ) (chunks : List Chunk) (st : StreamState) :
    ((chunks.foldl (streamChunkStep model ts) st).events).filter isExtractEvent =
      st.events.filter isExtractEvent ++
        ((chunks.filter isDoneChunk).map fun c =>
          extract_response_metrics (chunkJson c) model).join := by
  induction chunks generalizing st with
  | nil => simp
  | cons c t ih =>
    rw [List.foldl_cons, ih, streamChunkStep_events]
    by_cases hd : isDoneChunk c <;>
      by_cases hf : st.first_token_time = none ∧ isFirstTokenChunk c = true <;>
      simp [hd, hf, List.filter_append, filter_extract_self, List.filter_cons, isExtractEvent]

lemma ttftObs_cons_err (model m t : String) (l : List MetricEvent) :
    ttftObs model (MetricEvent.errorCountInc m t :: l) = ttftObs model l := rfl

lemma ttftObs_cons_dur (model me ep m r : String) (v : ℚ) (l : List MetricEvent) :
    ttftObs model (MetricEvent.requestDurationObserve me ep m r v :: l) =
      ttftObs model l := rfl

lemma ttftObs_cons_count (model me ep m r : String) (s : Nat) (l : List MetricEvent) :
    ttftObs model (MetricEvent.requestCountInc me ep m s r :: l) = ttftObs model l := rfl

/-- C5: for a streamed response with some chunk carrying partial text and a
single done chunk, time-to-first-token is observed exactly once — at the
first text-carrying chunk, with value its arrival time minus the request
start time — and the final extraction events are exactly those of the done
chunk. -/
theorem streaming_first_token_done (status : Nat) (chunks : List Chunk)
    (streamError : Bool) (model : String) (ts te : ℚ) (path routing : String)
    (c d : Chunk)
    (hc : chunks.find? isFirstTokenChunk = some c)
    (hd : chunks.filter isDoneChunk = [d]) :
    ttftObs model
        (handle_streaming_response status chunks streamError model ts te path routing).events
      = [c.arrival - ts] ∧
    (handle_streaming_response status chunks streamError model ts te path
        routing).events.filter isExtractEvent
      = extract_response_metrics (chunkJson d) model := by
  have hfold := fold_ttft model ts chunks ⟨none, [], []⟩ rfl
  have hdone := fold_doneEvents model ts chunks ⟨none, [], []⟩
  rw [hc] at hfold
  rw [hd] at hdone
  unfold handle_streaming_response
  constructor
  · by_cases hE : streamError <;>
      simp [hE, ttftObs_append, ttftObs_latency, ttftObs_nil, hfold,
        ttftObs_cons_err, ttftObs_cons_dur, ttftObs_cons_count]
  · by_cases hE : streamError <;>
      simp [hE, List.filter_append, filter_extract_latency, hdone,
        List.filter_cons, isExtractEvent]

/-- The three chunks of the spec's streaming scenario, arriving at times
1, 2 and 3. -/
def chunkHi : Chunk := ⟨[1], some ⟨none, none, none, none, none, some "Hi", false⟩, 1⟩

def chunkThere : Chunk :=
  ⟨[2], some ⟨none, none, none, none, none, some " there", false⟩, 2⟩

def chunkFinal : Chunk :=
  ⟨[3], some ⟨none, some 10, none, some 500000000, none, none, true⟩, 3⟩

/-- Witness for C5 on the spec scenario: time-to-first-token observed once at
the first chunk, final metrics exactly the done chunk's, with
tokens-per-second 20. -/
theorem streaming_first_token_done_check :
    [chunkHi, chunkThere, chunkFinal].find? isFirstTokenChunk = some chunkHi ∧
    [chunkHi, chunkThere, chunkFinal].filter isDoneChunk = [chunkFinal] ∧
    (ttftObs "m1" (handle_streaming_response 200 [chunkHi, chunkThere, chunkFinal] false
        "m1" 0 5 "/api/generate" "direct").events = [chunkHi.arrival - 0] ∧
     (handle_streaming_response 200 [chunkHi, chunkThere, chunkFinal] false "m1" 0 5
        "/api/generate" "direct").events.filter isExtractEvent =
       extract_response_metrics (chunkJson chunkFinal) "m1") ∧
    tpsObs "m1" (extract_response_metrics (chunkJson chunkFinal) "m1") = [20] := by
  refine ⟨rfl, rfl, ?_, ?_⟩
  · exact streaming_first_token_done 200 [chunkHi, chunkThere, chunkFinal] false "m1" 0 5
      "/api/generate" "direct" chunkHi chunkFinal rfl rfl
  · norm_num [extract_response_metrics, tpsObs, optIntTruthy, chunkJson, chunkFinal,
      List.filterMap_cons]

/-- The handler's view of the inbound body after lines 232-244 of the fixed
proxy: `pynone` when there is no non-empty readable body, otherwise a dict
view with the `model` and `stream` fields and the Python truthiness of the
dict itself.  A body that fails to parse (or whose `.get` raises) leaves the
empty dict: no fields, not truthy. -/
inductive BodyJson
  | pynone
  | dict (model : Option String) (stream : Bool) (truthy : Bool)
deriving DecidableEq, Repr

def bodyJsonTruthy : BodyJson → Bool
  | .pynone => false
  | .dict _ _ t => t

/-- One inbound client request. -/
structure InboundRequest where
  path : String
  method : String
  headers : List (String × String)
  body_bytes : Option Bytes
  body_json : BodyJson
deriving DecidableEq, Repr

/-- `model = body_json.get('model', 'unknown')`: "unknown" when the body is
absent, unparseable, or has no model field. -/
def requestModel (req : InboundRequest) : String :=
  match req.body_json with
  | .pynone => "unknown"
  | .dict m _ _ => m.getD "unknown"

/-- `body_json and body_json.get('stream', False)` (line 314). -/
def requestStreams (req : InboundRequest) : Bool :=
  bodyJsonTruthy req.body_json &&
    (match req.body_json with
     | .pynone => false
     | .dict _ s _ => s)

/-- ASCII lowercasing of a character (computable shallow model of
`str.lower`). -/
def lowerChar (c : Char) : Char :=
  if 'A' ≤ c ∧ c ≤ 'Z' then Char.ofNat (c.toNat + 32) else c

/-- ASCII lowercasing of a string. -/
def lowerStr (s : String) : String := ⟨s.data.map lowerChar⟩

/-- Case-insensitive header lookup (aiohttp's CIMultiDict); `key` is given
lowercased. -/
def headerGet (headers : List (String × String)) (key : String) : Option String :=
  (headers.find? fun kv => lowerStr kv.1 == key).map Prod.snd

/-- The body of the outbound upstream request: a structured JSON payload, an
opaque byte passthrough, or nothing. -/
inductive OutboundBody
  | jsonBody (model : Option String) (stream : Bool)
  | dataBody (bs : Bytes)
  | noBody
deriving DecidableEq, Repr

structure OutboundRequest where
  method : String
  path : String
  headers : List (String × String)
  body : OutboundBody
deriving DecidableEq, Repr

/-- Outbound request construction of the fixed proxy (lines 292-309): kwargs
carry headers only on the opaque-data branch, and there only the inbound
content-type. -/
def build_outbound_fixed (req : InboundRequest) : OutboundRequest :=
  let content_type := (headerGet req.headers "content-type").getD ""
  if bodyJsonTruthy req.body_json && strContains content_type "application/json" then
    { method := req.method, path := req.path, headers := [],
      body := match req.body_json with
              | .dict m s _ => .jsonBody m s
              | .pynone => .noBody }
  else if !(req.body_bytes.getD []).isEmpty then
    { method := req.method, path := req.path,
      headers := [("content-type", content_type)],
      body := .dataBody (req.body_bytes.getD []) }
  else
    { method := req.method, path := req.path, headers := [], body := .noBody }

/-- The header set stripped by `ollama_monitoring_proxy.py` (lines 150-155). -/
def hop_by_hop_headers : List String :=
  ["host", "content-length", "transfer-encoding", "connection", "keep-alive",
   "proxy-authenticate", "proxy-authorization", "te", "trailers", "upgrade",
   "content-type"]

/-- Outbound request construction of `ollama_monitoring_proxy.py`
(lines 148-179): strip the hop-by-hop set, forward the rest, re-add
content-type when the body was not parsed as truthy JSON. -/
def build_outbound_orig (req : InboundRequest) : OutboundRequest :=
  let base := req.headers.filter fun kv => !(hop_by_hop_headers.contains (lowerStr kv.1))
  let hs :=
    if !bodyJsonTruthy req.body_json && (headerGet req.headers "content-type").isSome then
      base ++ [("content-type", (headerGet req.headers "content-type").getD "")]
    else base
  let body :=
    if !(req.body_bytes.getD []).isEmpty && bodyJsonTruthy req.body_json then
      (match req.body_json with
       | .dict m s _ => OutboundBody.jsonBody m s
       | .pynone => OutboundBody.noBody)
    else if !(req.body_bytes.getD []).isEmpty then
      OutboundBody.dataBody (req.body_bytes.getD [])
    else OutboundBody.noBody
  { method := req.method, path := req.path, headers := hs, body := body }

/-- A request carrying a JSON body and a non-hop-by-hop header. -/
def reqAuth : InboundRequest :=
  ⟨"/api/generate", "POST",
   [("authorization", "Bearer abc"), ("content-type", "application/json")],
   some [123], .dict (some "m1") false true⟩

/-- C9 counterexample: the fixed proxy forwards no inbound headers at all on
the structured-JSON branch, so the non-hop-by-hop header `authorization` is
dropped, contradicting "contains every other inbound header unchanged". -/
theorem header_forwarding_counterexample :
    ("authorization", "Bearer abc") ∈ reqAuth.headers ∧
    "authorization" ∉ ["host", "content-length", "transfer-encoding",
      "connection", "content-type"] ∧
    (build_outbound_fixed reqAuth).headers = [] := by
  refine ⟨by decide, by decide, ?_⟩
  decide

/-- C9 amended: the fixed proxy forwards no inbound header other than
content-type (and only on the opaque-bytes branch); the original proxy
strips the full hop-by-hop set (also keep-alive, proxy-authenticate,
proxy-authorization, te, trailers, upgrade) and forwards every other inbound
header unchanged, re-adding the inbound content-type exactly when the body
was not parsed as truthy JSON. -/
theorem header_forwarding_amended (req : InboundRequest) (k v : String) :
    ((k, v) ∈ (build_outbound_fixed req).headers → k = "content-type") ∧
    ((k, v) ∈ (build_outbound_orig req).headers ↔
      ((k, v) ∈ req.headers ∧ hop_by_hop_headers.contains (lowerStr k) = false) ∨
      (k = "content-type" ∧ bodyJsonTruthy req.body_json = false ∧
        headerGet req.headers "content-type" = some v)) := by
  constructor
  · intro hmem
    unfold build_outbound_fixed at hmem
    by_cases h1 : (bodyJsonTruthy req.body_json &&
        strContains ((headerGet req.headers "content-type").getD "") "application/json") = true
    · rw [if_pos h1] at hmem
      simp at hmem
    · rw [if_neg h1] at hmem
      by_cases h2 : (!(req.body_bytes.getD []).isEmpty) = true
      · rw [if_pos h2] at hmem
        simp at hmem
        exact hmem.1
      · rw [if_neg h2] at hmem
        simp at hmem
  · show (k, v) ∈ (if !bodyJsonTruthy req.body_json &&
        (headerGet req.headers "content-type").isSome then
          (req.headers.filter fun kv => !(hop_by_hop_headers.contains (lowerStr kv.1))) ++
            [("content-type", (headerGet req.headers "content-type").getD "")]
        else req.headers.filter fun kv => !(hop_by_hop_headers.contains (lowerStr kv.1))) ↔ _
    by_cases hres : (!bodyJsonTruthy req.body_json &&
        (headerGet req.headers "content-type").isSome) = true
    · rw [if_pos hres]
      have ht : bodyJsonTruthy req.body_json = false := by
        have := (Bool.and_eq_true _ _).mp hres
        simpa using this.1
      have hsome : (headerGet req.headers "content-type").isSome = true :=
        ((Bool.and_eq_true _ _).mp hres).2
      obtain ⟨w, hw⟩ := Option.isSome_iff_exists.mp hsome
      rw [List.mem_append]
      constructor
      · rintro (hin | hpair)
        · obtain ⟨h1, h2⟩ := List.mem_filter.mp hin
          exact Or.inl ⟨h1, by simpa using h2⟩
        · simp only [List.mem_singleton, Prod.ext_iff] at hpair
          obtain ⟨hk, hv⟩ := hpair
          refine Or.inr ⟨hk, ht, ?_⟩
          rw [hw] at hv ⊢
          simp at hv
          rw [hv]
      · rintro (⟨h1, h2⟩ | ⟨hk, ht2, hv⟩)
        · exact Or.inl (List.mem_filter.mpr ⟨h1, by simpa using h2⟩)
        · refine Or.inr ?_
          simp only [List.mem_singleton, Prod.ext_iff]
          exact ⟨hk, by rw [hv]; rfl⟩
    · rw [if_neg hres]
      constructor
      · intro hin
        obtain ⟨h1, h2⟩ := List.mem_filter.mp hin
        exact Or.inl ⟨h1, by simpa using h2⟩
      · rintro (⟨h1, h2⟩ | ⟨hk, ht2, hv⟩)
        · exact List.mem_filter.mpr ⟨h1, by simpa using h2⟩
        · exact absurd (by simp [ht2, hv]) hres

structure Timing where
  start_time : ℚ
  queue_entry_time : ℚ
  processing_start_time : ℚ
  end_time : ℚ
deriving DecidableEq, Repr

/-- The fate of the outbound upstream call as seen by `proxy_request`'s
try/except/finally: a `TimeoutError`, a task cancellation (caught by no
except clause, but still running the finally block), any other exception, or
an upstream response — carrying the streamed chunk view, a mid-stream error
flag, the fully read body and its parse, and the response content-type. -/
inductive UpstreamResult
  | timeout
  | cancelled
  | exn (msg : String)
  | responds (status : Nat) (chunks : List Chunk) (streamError : Bool)
      (body : Bytes) (response_json : Option OllamaResponse)
      (contentType : Option String)
deriving DecidableEq, Repr

inductive ProxyResponse
  | plain (status : Nat) (body : Bytes) (contentType : String)
  | textResp (status : Nat) (text : String)
  | streamed (status : Nat) (written : List Bytes)
  | raisedCancelled
deriving DecidableEq, Repr

def responseStatus : ProxyResponse → Option Nat
  | .plain s _ _ => some s
  | .textResp s _ => some s
  | .streamed s _ => some s
  | .raisedCancelled => none

/-- `proxy_request` of the fixed proxy (lines 223-372), from semaphore
acquisition onward: the queue-wait observation and active-gauge increment,
the forwarding fork (streaming / non-streaming / timeout 504 / other
exception 502 / cancellation), and the finally block's active-gauge
decrement closing every path. -/
def proxy_request (req : InboundRequest) (up : UpstreamResult)
    (enable_portkey : Bool) (t : Timing) : List MetricEvent × ProxyResponse :=
  let model := requestModel req
  let routing := if enable_portkey then "portkey" else "direct"
  let queue_wait := t.processing_start_time - t.queue_entry_time
  let inner : List MetricEvent × ProxyResponse :=
    match up with
    | .timeout => ([.errorCountInc model "timeout"], .textResp 504 "Gateway Timeout")
    | .cancelled => ([], .raisedCancelled)
    | .exn msg =>
        ([.errorCountInc model "proxy_error"], .textResp 502 ("Bad Gateway: " ++ msg))
    | .responds status chunks streamError body response_json contentType =>
        if requestStreams req then
          let st := handle_streaming_response status chunks streamError model
            t.start_time t.end_time req.path routing
          (st.events, .streamed status st.written)
        else
          let duration := t.end_time - t.start_time
          ((match response_json with
            | some j => extract_response_metrics j model
            | none => []) ++
           [.requestDurationObserve req.method req.path model routing duration] ++
           record_endpoint_latency req.path duration model (requestStreams req) ++
           [.requestCountInc req.method req.path model status routing],
           .plain status body (contentType.getD "application/json"))
  ([.queueWaitObserve model queue_wait, .activeRequestsInc model] ++ inner.1 ++
     [.activeRequestsDec model],
   inner.2)

def isActiveEvent : MetricEvent → Bool
  | .activeRequestsInc _ => true
  | .activeRequestsDec _ => true
  | _ => false

def isActiveDec (model : String) : MetricEvent → Bool
  | .activeRequestsDec m => m == model
  | _ => false

/-- The contribution of one event to the active-requests gauge of a model. -/
def activeDelta (model : String) : MetricEvent → Int
  | .activeRequestsInc m => if m = model then 1 else 0
  | .activeRequestsDec m => if m = model then -1 else 0
  | _ => 0

lemma extract_noActive (r : OllamaResponse) (m : String) :
    ∀ e ∈ extract_response_metrics r m, isActiveEvent e = false := by
  intro e he
  rcases mem_extract r m e he with ⟨n, rfl⟩ | ⟨n, rfl⟩ | ⟨v, rfl⟩ | ⟨v, rfl⟩ | ⟨v, rfl⟩ <;> rfl

lemma latency_noActive (path : String) (d : ℚ) (m : String) (s : Bool) :
    ∀ e ∈ record_endpoint_latency path d m s, isActiveEvent e = false := by
  intro e he
  unfold record_endpoint_latency at he
  split_ifs at he <;> simp at he <;> subst he <;> rfl

lemma fold_noActive (model : String) (ts : ℚ) (chunks : List Chunk) (st : StreamState)
    (h : ∀ e ∈ st.events, isActiveEvent e = false) :
    ∀ e ∈ (chunks.foldl (streamChunkStep model ts) st).events, isActiveEvent e = false := by
  induction chunks generalizing st with
  | nil => exact h
  | cons c tl ih =>
    rw [List.foldl_cons]
    refine ih _ ?_
    intro e he
    rw [streamChunkStep_events] at he
    rcases List.mem_append.mp he with he' | he'
    · rcases List.mem_append.mp he' with h1 | h2
      · exact h _ h1
      · by_cases hf : st.first_token_time = none ∧ isFirstTokenChunk c = true
        · rw [if_pos hf] at h2
          simp at h2
          subst h2
          rfl
        · rw [if_neg hf] at h2
          simp at h2
    · by_cases hd : isDoneChunk c = true
      · rw [if_pos hd] at he'
        exact extract_noActive _ _ _ he'
      · rw [if_neg hd] at he'
        simp at he'

lemma handle_events_eq (status : Nat) (chunks : List Chunk) (serr : Bool)
    (model : String) (ts te : ℚ) (path routing : String) :
    (handle_streaming_response status chunks serr model ts te path routing).events =
      (chunks.foldl (streamChunkStep model ts) ⟨none, [], []⟩).events ++
      ((if serr then [MetricEvent.errorCountInc model "streaming_error"] else []) ++
       [MetricEvent.requestDurationObserve "POST" path model routing (te - ts)] ++
       record_endpoint_latency path (te - ts) model true ++
       [MetricEvent.requestCountInc "POST" path model status routing]) := by
  unfold handle_streaming_response
  by_cases hE : serr <;> simp [hE]

lemma stream_noActive (status : Nat) (chunks : List Chunk) (serr : Bool) (model : String)
    (ts te : ℚ) (path routing : String) :
    ∀ e ∈ (handle_streaming_response status chunks serr model ts te path routing).events,
      isActiveEvent e = false := by
  intro e he
  rw [handle_events_eq] at he
  rcases List.mem_append.mp he with h | h
  · exact fold_noActive model ts chunks ⟨none, [], []⟩ (by intro x hx; simp at hx) e h
  · rcases List.mem_append.mp h with h | h
    · rcases List.mem_append.mp h with h | h
      · rcases List.mem_append.mp h with h | h
        · by_cases hE : serr
          · rw [if_pos hE] at h
            simp at h
            subst h
            rfl
          · rw [if_neg hE] at h
            simp at h
        · simp at h
          subst h
          rfl
      · exact latency_noActive _ _ _ _ _ h
    · simp at h
      subst h
      rfl

lemma noActive_count (model : String) (l : List MetricEvent)
    (h : ∀ e ∈ l, isActiveEvent e = false) :
    l.countP (isActiveDec model) = 0 ∧ (l.map (activeDelta model)).sum = 0 := by
  constructor
  · refine List.countP_eq_zero.mpr ?_
    intro e he
    have := h e he
    rcases e <;> simp_all [isActiveEvent, isActiveDec]
  · refine List.sum_eq_zero ?_
    intro x hx
    obtain ⟨e, he, rfl⟩ := List.mem_map.mp hx
    have := h e he
    rcases e <;> simp_all [isActiveEvent, activeDelta]

/-- C3: on every outcome — non-streaming success, streaming, timeout, other
exception, or cancellation — `proxy_request`'s trace decrements the model's
active-requests gauge exactly once (the finally block closes every path),
and the gauge's net change over the request is zero, returning it to its
pre-request value. -/
theorem active_gauge_balanced (req : InboundRequest) (up : UpstreamResult)
    (enable_portkey : Bool) (t : Timing) :
    (proxy_request req up enable_portkey t).1.countP
        (isActiveDec (requestModel req)) = 1 ∧
    ((proxy_request req up enable_portkey t).1.map
        (activeDelta (requestModel req))).sum = 0 := by
  have key : ∀ (inner : List MetricEvent), (∀ e ∈ inner, isActiveEvent e = false) →
      (([MetricEvent.queueWaitObserve (requestModel req)
           (t.processing_start_time - t.queue_entry_time),
         MetricEvent.activeRequestsInc (requestModel req)] ++ inner ++
        [MetricEvent.activeRequestsDec (requestModel req)]).countP
          (isActiveDec (requestModel req)) = 1 ∧
       (([MetricEvent.queueWaitObserve (requestModel req)
            (t.processing_start_time - t.queue_entry_time),
          MetricEvent.activeRequestsInc (requestModel req)] ++ inner ++
         [MetricEvent.activeRequestsDec (requestModel req)]).map
           (activeDelta (requestModel req))).sum = 0) := by
    intro inner hinner
    obtain ⟨hc, hs⟩ := noActive_count (requestModel req) inner hinner
    constructor
    · simp [List.countP_append, List.countP_cons, isActiveDec, hc]
    · simp [List.map_append, List.sum_append, hs, activeDelta]
  rcases up with _ | _ | msg | ⟨status, chunks, serr, body, rj, ct⟩
  · exact key _ (by intro e he; simp at he; subst he; rfl)
  · exact key _ (by intro e he; simp at he)
  · exact key _ (by intro e he; simp at he; subst he; rfl)
  · by_cases hs : requestStreams req = true
    · have hred : (proxy_request req (.responds status chunks serr body rj ct)
          enable_portkey t).1 =
          [MetricEvent.queueWaitObserve (requestModel req)
             (t.processing_start_time - t.queue_entry_time),
           MetricEvent.activeRequestsInc (requestModel req)] ++
          (handle_streaming_response status chunks serr (requestModel req)
             t.start_time t.end_time req.path
             (if enable_portkey then "portkey" else "direct")).events ++
          [MetricEvent.activeRequestsDec (requestModel req)] := by
        simp only [proxy_request, hs, if_true]
      rw [hred]
      exact key _ (stream_noActive status chunks serr (requestModel req)
        t.start_time t.end_time req.path (if enable_portkey then "portkey" else "direct"))
    · have hs' : requestStreams req = false := by simpa using hs
      have hred : (proxy_request req (.responds status chunks serr body rj ct)
          enable_portkey t).1 =
          [MetricEvent.queueWaitObserve (requestModel req)
             (t.processing_start_time - t.queue_entry_time),
           MetricEvent.activeRequestsInc (requestModel req)] ++
          ((match rj with
            | some j => extract_response_metrics j (requestModel req)
            | none => []) ++
           [MetricEvent.requestDurationObserve req.method req.path (requestModel req)
              (if enable_portkey then "portkey" else "direct")
              (t.end_time - t.start_time)] ++
           record_endpoint_latency req.path (t.end_time - t.start_time)
             (requestModel req) false ++
           [MetricEvent.requestCountInc req.method req.path (requestModel req) status
              (if enable_portkey then "portkey" else "direct")]) ++
          [MetricEvent.activeRequestsDec (requestModel req)] := by
        simp only [proxy_request, hs', Bool.false_eq_true, if_false]
      rw [hred]
      refine key _ ?_
      intro e he
      rcases List.mem_append.mp he with h | h
      · rcases List.mem_append.mp h with h | h
        · rcases List.mem_append.mp h with h | h
          · rcases rj with _ | j
            · simp at h
            · exact extract_noActive _ _ _ h
          · simp at h
            subst h
            rfl
        · exact latency_noActive _ _ _ _ _ h
      · simp at h
        subst h
        rfl

/-- C6: a timeout yields 504 "Gateway Timeout", any other caught exception
502 with a short "Bad Gateway" text body; between the gauge increment and
the finally block's decrement, the only metric the failure touches is one
increment of the error counter labelled `{model, error_type}`. -/
theorem upstream_failure_response (req : InboundRequest) (enable_portkey : Bool)
    (t : Timing) (msg : String) :
    proxy_request req .timeout enable_portkey t =
      ([.queueWaitObserve (requestModel req)
          (t.processing_start_time - t.queue_entry_time),
        .activeRequestsInc (requestModel req),
        .errorCountInc (requestModel req) "timeout",
        .activeRequestsDec (requestModel req)],
       .textResp 504 "Gateway Timeout") ∧
    proxy_request req (.exn msg) enable_portkey t =
      ([.queueWaitObserve (requestModel req)
          (t.processing_start_time - t.queue_entry_time),
        .activeRequestsInc (requestModel req),
        .errorCountInc (requestModel req) "proxy_error",
        .activeRequestsDec (requestModel req)],
       .textResp 502 ("Bad Gateway: " ++ msg)) := by
  constructor <;> rfl

/-- The model label an event carries, if any (the tags latency histogram is
the only unlabelled per-request metric). -/
def eventModel : MetricEvent → Option String
  | .promptTokensInc m _ => some m
  | .generatedTokensInc m _ => some m
  | .tokensPerSecondObserve m _ => some m
  | .tokensPerSecondPhaseObserve m _ _ => some m
  | .modelLoadDurationObserve m _ => some m
  | .contextLengthObserve m _ => some m
  | .timeToFirstTokenObserve m _ => some m
  | .queueWaitObserve m _ => some m
  | .activeRequestsInc m => some m
  | .activeRequestsDec m => some m
  | .errorCountInc m _ => some m
  | .requestDurationObserve _ _ m _ _ => some m
  | .requestCountInc _ _ m _ _ => some m
  | .generateLatencyObserve m _ _ => some m
  | .chatLatencyObserve m _ _ => some m
  | .tagsLatencyObserve _ => none
  | .showLatencyObserve m _ => some m

lemma extract_model (r : OllamaResponse) (m : String) :
    ∀ e ∈ extract_response_metrics r m, eventModel e = some m := by
  intro e he
  rcases mem_extract r m e he with ⟨n, rfl⟩ | ⟨n, rfl⟩ | ⟨v, rfl⟩ | ⟨v, rfl⟩ | ⟨v, rfl⟩ <;> rfl

lemma latency_model (path : String) (d : ℚ) (m : String) (s : Bool) :
    ∀ e ∈ record_endpoint_latency path d m s,
      eventModel e = none ∨ eventModel e = some m := by
  intro e he
  unfold record_endpoint_latency at he
  split_ifs at he <;> simp at he <;> subst he <;> simp [eventModel]

lemma fold_model (model : String) (ts : ℚ) (chunks : List Chunk) (st : StreamState)
    (h : ∀ e ∈ st.events, eventModel e = none ∨ eventModel e = some model) :
    ∀ e ∈ (chunks.foldl (streamChunkStep model ts) st).events,
      eventModel e = none ∨ eventModel e = some model := by
  induction chunks generalizing st with
  | nil => exact h
  | cons c tl ih =>
    rw [List.foldl_cons]
    refine ih _ ?_
    intro e he
    rw [streamChunkStep_events] at he
    rcases List.mem_append.mp he with he' | he'
    · rcases List.mem_append.mp he' with h1 | h2
      · exact h _ h1
      · by_cases hf : st.first_token_time = none ∧ isFirstTokenChunk c = true
        · rw [if_pos hf] at h2
          simp at h2
          subst h2
          exact Or.inr rfl
        · rw [if_neg hf] at h2
          simp at h2
    · by_cases hd : isDoneChunk c = true
      · rw [if_pos hd] at he'
        exact Or.inr (extract_model _ _ _ he')
      · rw [if_neg hd] at he'
        simp at he'

lemma stream_model (status : Nat) (chunks : List Chunk) (serr : Bool) (model : String)
    (ts te : ℚ) (path routing : String) :
    ∀ e ∈ (handle_streaming_response status chunks serr model ts te path routing).events,
      eventModel e = none ∨ eventModel e = some model := by
  intro e he
  rw [handle_events_eq] at he
  rcases List.mem_append.mp he with h | h
  · exact fold_model model ts chunks ⟨none, [], []⟩ (by intro x hx; simp at hx) e h
  · rcases List.mem_append.mp h with h | h
    · rcases List.mem_append.mp h with h | h
      · rcases List.mem_append.mp h with h | h
        · by_cases hE : serr
          · rw [if_pos hE] at h
            simp at h
            subst h
            exact Or.inr rfl
          · rw [if_neg hE] at h
            simp at h
        · simp at h
          subst h
          exact Or.inr rfl
      · exact latency_model _ _ _ _ _ h
    · simp at h
      subst h
      exact Or.inr rfl

/-- Every labelled metric `proxy_request` touches carries the model extracted
from the request body. -/
lemma proxy_events_model (req : InboundRequest) (up : UpstreamResult)
    (enable_portkey : Bool) (t : Timing) :
    ∀ e ∈ (proxy_request req up enable_portkey t).1,
      eventModel e = none ∨ eventModel e = some (requestModel req) := by
  have outer : ∀ (inner : List MetricEvent),
      (∀ e ∈ inner, eventModel e = none ∨ eventModel e = some (requestModel req)) →
      ∀ e ∈ ([MetricEvent.queueWaitObserve (requestModel req)
                (t.processing_start_time - t.queue_entry_time),
              MetricEvent.activeRequestsInc (requestModel req)] ++ inner ++
             [MetricEvent.activeRequestsDec (requestModel req)]),
        eventModel e = none ∨ eventModel e = some (requestModel req) := by
    intro inner hinner e he
    rcases List.mem_append.mp he with h | h
    · rcases List.mem_append.mp h with h | h
      · simp at h
        rcases h with h | h <;> subst h <;> exact Or.inr rfl
      · exact hinner _ h
    · simp at h
      subst h
      exact Or.inr rfl
  rcases up with _ | _ | msg | ⟨status, chunks, serr, body, rj, ct⟩
  · exact outer _ (by intro e he; simp at he; subst he; exact Or.inr rfl)
  · exact outer _ (by intro e he; simp at he)
  · exact outer _ (by intro e he; simp at he; subst he; exact Or.inr rfl)
  · by_cases hs : requestStreams req = true
    · have hred : (proxy_request req (.responds status chunks serr body rj ct)
          enable_portkey t).1 =
          [MetricEvent.queueWaitObserve (requestModel req)
             (t.processing_start_time - t.queue_entry_time),
           MetricEvent.activeRequestsInc (requestModel req)] ++
          (handle_streaming_response status chunks serr (requestModel req)
             t.start_time t.end_time req.path
             (if enable_portkey then "portkey" else "direct")).events ++
          [MetricEvent.activeRequestsDec (requestModel req)] := by
        simp only [proxy_request, hs, if_true]
      rw [hred]
      exact outer _ (stream_model status chunks serr (requestModel req)
        t.start_time t.end_time req.path (if enable_portkey then "portkey" else "direct"))
    · have hs' : requestStreams req = false := by simpa using hs
      have hred : (proxy_request req (.responds status chunks serr body rj ct)
          enable_portkey t).1 =
          [MetricEvent.queueWaitObserve (requestModel req)
             (t.processing_start_time - t.queue_entry_time),
           MetricEvent.activeRequestsInc (requestModel req)] ++
          ((match rj with
            | some j => extract_response_metrics j (requestModel req)
            | none => []) ++
           [MetricEvent.requestDurationObserve req.method req.path (requestModel req)
              (if enable_portkey then "portkey" else "direct")
              (t.end_time - t.start_time)] ++
           record_endpoint_latency req.path (t.end_time - t.start_time)
             (requestModel req) false ++
           [MetricEvent.requestCountInc req.method req.path (requestModel req) status
              (if enable_portkey then "portkey" else "direct")]) ++
          [MetricEvent.activeRequestsDec (requestModel req)] := by
        simp only [proxy_request, hs', Bool.false_eq_true, if_false]
      rw [hred]
      refine outer _ ?_
      intro e he
      rcases List.mem_append.mp he with h | h
      · rcases List.mem_append.mp h with h | h
        · rcases List.mem_append.mp h with h | h
          · rcases rj with _ | j
            · simp at h
            · exact Or.inr (extract_model _ _ _ h)
          · simp at h
            subst h
            exact Or.inr rfl
        · exact latency_model _ _ _ _ _ h
      · simp at h
        subst h
        exact Or.inr rfl

/-- C10: a request whose body is absent, unparseable, or lacking a model
field is still forwarded (the response carries the upstream status); every
labelled metric it touches uses the model label "unknown", and the malformed
body alone never produces an error response. -/
theorem unknown_model_fallback (req : InboundRequest) (up : UpstreamResult)
    (enable_portkey : Bool) (t : Timing)
    (h : match req.body_json with
         | BodyJson.pynone => True
         | BodyJson.dict m _ _ => m = none) :
    requestModel req = "unknown" ∧
    (∀ e ∈ (proxy_request req up enable_portkey t).1,
       eventModel e = none ∨ eventModel e = some "unknown") ∧
    (∀ status chunks serr body rj ct,
       up = .responds status chunks serr body rj ct →
       responseStatus (proxy_request req up enable_portkey t).2 = some status) := by
  have hm : requestModel req = "unknown" := by
    unfold requestModel
    rcases hb : req.body_json with _ | ⟨m, s, tr⟩
    · rfl
    · rw [hb] at h
      simp only [hb] at h ⊢
      rw [h]
      rfl
  refine ⟨hm, ?_, ?_⟩
  · intro e he
    have := proxy_events_model req up enable_portkey t e he
    rwa [hm] at this
  · rintro status chunks serr body rj ct rfl
    by_cases hs : requestStreams req = true
    · simp only [proxy_request, hs, if_true]
      rfl
    · have hs' : requestStreams req = false := by simpa using hs
      simp only [proxy_request, hs', Bool.false_eq_true, if_false]
      rfl

/-- A request whose body parsed to a dict without a model field. -/
def reqNoModel : InboundRequest :=
  ⟨"/api/generate", "POST", [("content-type", "application/json")],
   some [1, 2], .dict none false false⟩

/-- Witness for C10: the model-less request is forwarded with the upstream
status 200 and all labelled metrics use "unknown". -/
theorem unknown_model_fallback_check :
    (match reqNoModel.body_json with
     | BodyJson.pynone => True
     | BodyJson.dict m _ _ => m = none) ∧
    (requestModel reqNoModel = "unknown" ∧
     (∀ e ∈ (proxy_request reqNoModel (.responds 200 [] false [7] none none) false
         ⟨0, 0, 0, 1⟩).1,
        eventModel e = none ∨ eventModel e = some "unknown") ∧
     (∀ status chunks serr body rj ct,
        (UpstreamResult.responds 200 [] false [7] none none) =
          .responds status chunks serr body rj ct →
        responseStatus (proxy_request reqNoModel
          (.responds 200 [] false [7] none none) false ⟨0, 0, 0, 1⟩).2 = some status)) :=
  ⟨rfl, unknown_model_fallback reqNoModel (.responds 200 [] false [7] none none) false
     ⟨0, 0, 0, 1⟩ rfl⟩

/-- Lifecycle of one request's admission, per `proxy_request` lines 246-275
and 363-372: waiting between the queue-size increment and semaphore grant,
executing after the grant, finished after the finally block releases. -/
inductive RPhase
  | waiting
  | executing
  | finished
deriving DecidableEq, Repr

/-- Per-request admission record: arrival instant, admission instant (if
admitted), and whether the semaphore had no free slot at arrival. -/
structure ReqRec where
  arrivedAt : ℚ
  admittedAt : Option ℚ
  blockedOnArrival : Bool
  phase : RPhase
deriving DecidableEq, Repr

/-- The shared admission/queue state: the clock, the semaphore's free slots,
`self.queue_size`, `self._max_queue_seen` (absent before the first request),
the running maximum of every value the queue-size gauge has taken, and the
records of all requests so far. -/
structure AdmState where
  now : ℚ
  semAvail : Nat
  queue_size : Int
  maxSeen : Option Int
  gaugeMax : Int
  reqs : List ReqRec
deriving DecidableEq, Repr

/-- `Semaphore(10)` at line 42 of the fixed proxy. -/
def queue_semaphore_limit : Nat := 10

/-- The max-queue-size update of lines 256-262: set on first arrival,
thereafter raised only when exceeded. -/
def updateMax (maxSeen : Option Int) (qs : Int) : Option Int :=
  match maxSeen with
  | some m => if qs > m then some qs else some m
  | none => some qs

def admInit (limit : Nat) : AdmState := ⟨0, limit, 0, none, 0, []⟩

/-- The admission transition system, one step per scheduler-atomic region of
`proxy_request` (the event loop runs each region without yielding):
`arriveAdmit` = arrival with a free semaphore slot (lines 246-281, no await
suspends); `arriveBlocked` = arrival that suspends in `acquire` (lines
246-265); `admitWaiting` = a blocked request resuming after a release
(lines 267-281); `requestDone` = the finally block (lines 363-372).  The
clock advances strictly between regions. -/
inductive AdmStep (limit : Nat) : AdmState → AdmState → Prop
  | arriveAdmit (s : AdmState) (tNew : ℚ) (ht : s.now < tNew) (hsem : 0 < s.semAvail) :
      AdmStep limit s
        { now := tNew, semAvail := s.semAvail - 1,
          queue_size := s.queue_size,
          maxSeen := updateMax s.maxSeen (s.queue_size + 1),
          gaugeMax := max s.gaugeMax (s.queue_size + 1),
          reqs := s.reqs ++ [⟨tNew, some tNew, false, .executing⟩] }
  | arriveBlocked (s : AdmState) (tNew : ℚ) (ht : s.now < tNew) (hsem : s.semAvail = 0) :
      AdmStep limit s
        { now := tNew, semAvail := 0,
          queue_size := s.queue_size + 1,
          maxSeen := updateMax s.maxSeen (s.queue_size + 1),
          gaugeMax := max s.gaugeMax (s.queue_size + 1),
          reqs := s.reqs ++ [⟨tNew, none, true, .waiting⟩] }
  | admitWaiting (s : AdmState) (tNew : ℚ) (l₁ : List ReqRec) (r : ReqRec)
      (l₂ : List ReqRec) (ht : s.now < tNew) (hsem : 0 < s.semAvail)
      (hreqs : s.reqs = l₁ ++ r :: l₂) (hph : r.phase = .waiting) :
      AdmStep limit s
        { now := tNew, semAvail := s.semAvail - 1,
          queue_size := s.queue_size - 1,
          maxSeen := s.maxSeen,
          gaugeMax := max s.gaugeMax (s.queue_size - 1),
          reqs := l₁ ++ { r with admittedAt := some tNew, phase := .executing } :: l₂ }
  | requestDone (s : AdmState) (tNew : ℚ) (l₁ : List ReqRec) (r : ReqRec)
      (l₂ : List ReqRec) (ht : s.now < tNew)
      (hreqs : s.reqs = l₁ ++ r :: l₂) (hph : r.phase = .executing) :
      AdmStep limit s
        { now := tNew, semAvail := s.semAvail + 1,
          queue_size := s.queue_size,
          maxSeen := s.maxSeen,
          gaugeMax := s.gaugeMax,
          reqs := l₁ ++ { r with phase := .finished } :: l₂ }

def AdmReachable (limit : Nat) (s : AdmState) : Prop :=
  Relation.ReflTransGen (AdmStep limit) (admInit limit) s

def activeCount (s : AdmState) : Nat :=
  s.reqs.countP fun r => decide (r.phase = RPhase.executing)

def waitingCount (s : AdmState) : Nat :=
  s.reqs.countP fun r => decide (r.phase = RPhase.waiting)

def maxSeenVal : Option Int → Int
  | none => 0
  | some m => m

/-- The inductive invariant of the admission system. -/
def AdmInv (limit : Nat) (s : AdmState) : Prop :=
  s.semAvail + activeCount s = limit ∧
  s.queue_size = (waitingCount s : Int) ∧
  s.queue_size ≤ s.gaugeMax ∧
  (s.maxSeen = none → s.reqs = [] ∧ s.gaugeMax = 0) ∧
  (∀ m, s.maxSeen = some m → m = s.gaugeMax) ∧
  (∀ r ∈ s.reqs, r.arrivedAt ≤ s.now ∧
     ∀ u, r.admittedAt = some u → r.blockedOnArrival = true → r.arrivedAt < u)

lemma admInv_init (limit : Nat) : AdmInv limit (admInit limit) := by
  refine ⟨?_, ?_, ?_, ?_, ?_, ?_⟩ <;>
    simp [admInit, activeCount, waitingCount]

lemma updateMax_ne_none (ms : Option Int) (q : Int) : updateMax ms q ≠ none := by
  rcases ms with _ | m <;> simp [updateMax] <;> split <;> simp

lemma updateMax_some (ms : Option Int) (q m' : Int) (h : updateMax ms q = some m') :
    (ms = none ∧ m' = q) ∨ (∃ m₀, ms = some m₀ ∧ m' = max m₀ q) := by
  rcases ms with _ | m₀
  · simp [updateMax] at h
    exact Or.inl ⟨rfl, h.symm⟩
  · refine Or.inr ⟨m₀, rfl, ?_⟩
    simp only [updateMax] at h
    by_cases hlt : q > m₀
    · rw [if_pos hlt] at h
      have hqm : q = m' := Option.some.inj h
      rw [max_eq_right (le_of_lt hlt)]
      omega
    · rw [if_neg hlt] at h
      have hqm : m₀ = m' := Option.some.inj h
      rw [max_eq_left (by omega)]
      omega

lemma admInv_step (limit : Nat) (s s' : AdmState) (h : AdmInv limit s)
    (hs : AdmStep limit s s') : AdmInv limit s' := by
  obtain ⟨h1, h2, h3, h4, h5, h6⟩ := h
  cases hs with
  | arriveAdmit tNew ht hsem =>
    refine ⟨?_, ?_, ?_, ?_, ?_, ?_⟩
    · simp [activeCount, List.countP_append, List.countP_cons, List.countP_nil] at h1 ⊢
      omega
    · simp [waitingCount, List.countP_append, List.countP_cons, List.countP_nil] at h2 ⊢
      omega
    · exact le_trans h3 (le_max_left _ _)
    · intro hc
      exact absurd hc (updateMax_ne_none _ _)
    · intro m hm
      simp only at hm
      rcases updateMax_some _ _ _ hm with ⟨hnone, rfl⟩ | ⟨m₀, hsome, rfl⟩
      · obtain ⟨hreqs0, hg0⟩ := h4 hnone
        have hq0 : s.queue_size = 0 := by
          rw [h2]
          simp [waitingCount, hreqs0]
        simp only [hg0, hq0]
        decide
      · simp only [h5 m₀ hsome]
    · intro r hr
      simp only [List.mem_append] at hr
      rcases hr with hold | hnew
      · obtain ⟨ha, hb⟩ := h6 r hold
        exact ⟨le_trans ha (le_of_lt ht), hb⟩
      · simp at hnew
        subst hnew
        refine ⟨le_refl _, ?_⟩
        intro u hu hb
        simp at hb
  | arriveBlocked tNew ht hsem =>
    refine ⟨?_, ?_, ?_, ?_, ?_, ?_⟩
    · simp [activeCount, List.countP_append, List.countP_cons, List.countP_nil] at h1 ⊢
      omega
    · simp [waitingCount, List.countP_append, List.countP_cons, List.countP_nil] at h2 ⊢
      omega
    · exact le_max_right _ _
    · intro hc
      exact absurd hc (updateMax_ne_none _ _)
    · intro m hm
      simp only at hm
      rcases updateMax_some _ _ _ hm with ⟨hnone, rfl⟩ | ⟨m₀, hsome, rfl⟩
      · obtain ⟨hreqs0, hg0⟩ := h4 hnone
        have hq0 : s.queue_size = 0 := by
          rw [h2]
          simp [waitingCount, hreqs0]
        simp only [hg0, hq0]
        decide
      · simp only [h5 m₀ hsome]
    · intro r hr
      simp only [List.mem_append] at hr
      rcases hr with hold | hnew
      · obtain ⟨ha, hb⟩ := h6 r hold
        exact ⟨le_trans ha (le_of_lt ht), hb⟩
      · simp at hnew
        subst hnew
        refine ⟨le_refl _, ?_⟩
        intro u hu hb
        simp at hu
  | admitWaiting tNew l₁ r l₂ ht hsem hreqs hph =>
    have hrmem : r ∈ s.reqs := by
      rw [hreqs]
      exact List.mem_append_right _ (List.mem_cons_self _ _)
    refine ⟨?_, ?_, ?_, ?_, ?_, ?_⟩
    · simp [activeCount, hreqs, hph, List.countP_append, List.countP_cons,
        List.countP_nil] at h1 ⊢
      omega
    · simp [waitingCount, hreqs, hph, List.countP_append, List.countP_cons,
        List.countP_nil] at h2 ⊢
      omega
    · exact le_max_right _ _
    · intro hms
      obtain ⟨hreqs0, _⟩ := h4 hms
      rw [hreqs] at hreqs0
      simp at hreqs0
    · intro m hm
      simp only at hm
      rw [max_eq_left (by omega)]
      exact h5 m hm
    · intro x hx
      simp only [List.mem_append, List.mem_cons] at hx
      rcases hx with hl | hx' | hl₂
      · have hxold : x ∈ s.reqs := by
          rw [hreqs]
          exact List.mem_append_left _ hl
        obtain ⟨ha, hb⟩ := h6 x hxold
        exact ⟨le_trans ha (le_of_lt ht), hb⟩
      · subst hx'
        obtain ⟨ha, _⟩ := h6 r hrmem
        refine ⟨le_trans ha (le_of_lt ht), ?_⟩
        intro u hu hb
        simp at hu
        subst hu
        exact lt_of_le_of_lt ha ht
      · have hxold : x ∈ s.reqs := by
          rw [hreqs]
          exact List.mem_append_right _ (List.mem_cons_of_mem _ hl₂)
        obtain ⟨ha, hb⟩ := h6 x hxold
        exact ⟨le_trans ha (le_of_lt ht), hb⟩
  | requestDone tNew l₁ r l₂ ht hreqs hph =>
    have hrmem : r ∈ s.reqs := by
      rw [hreqs]
      exact List.mem_append_right _ (List.mem_cons_self _ _)
    refine ⟨?_, ?_, ?_, ?_, ?_, ?_⟩
    · simp [activeCount, hreqs, hph, List.countP_append, List.countP_cons,
        List.countP_nil] at h1 ⊢
      omega
    · simp [waitingCount, hreqs, hph, List.countP_append, List.countP_cons,
        List.countP_nil] at h2 ⊢
      omega
    · exact h3
    · intro hms
      obtain ⟨hreqs0, _⟩ := h4 hms
      rw [hreqs] at hreqs0
      simp at hreqs0
    · exact h5
    · intro x hx
      simp only [List.mem_append, List.mem_cons] at hx
      rcases hx with hl | hx' | hl₂
      · have hxold : x ∈ s.reqs := by
          rw [hreqs]
          exact List.mem_append_left _ hl
        obtain ⟨ha, hb⟩ := h6 x hxold
        exact ⟨le_trans ha (le_of_lt ht), hb⟩
      · subst hx'
        obtain ⟨ha, hb⟩ := h6 r hrmem
        exact ⟨le_trans ha (le_of_lt ht), hb⟩
      · have hxold : x ∈ s.reqs := by
          rw [hreqs]
          exact List.mem_append_right _ (List.mem_cons_of_mem _ hl₂)
        obtain ⟨ha, hb⟩ := h6 x hxold
        exact ⟨le_trans ha (le_of_lt ht), hb⟩

lemma admInv_reachable (limit : Nat) (s : AdmState) (h : AdmReachable limit s) :
    AdmInv limit s := by
  induction h with
  | refl => exact admInv_init limit
  | tail hab hbc ih => exact admInv_step limit _ _ ih hbc

/-- C4: in every reachable state of the admission system, at most `limit`
requests are in the post-admission executing state (the semaphore bound, 10
in `OllamaMonitoringProxy.__init__`), and every request that found no free
slot on arrival was admitted strictly later than it arrived, giving a
strictly positive queue wait. -/
theorem admission_bound (limit : Nat) (s : AdmState) (h : AdmReachable limit s) :
    activeCount s ≤ limit ∧
    ∀ r ∈ s.reqs, r.blockedOnArrival = true →
      ∀ u, r.admittedAt = some u → r.arrivedAt < u := by
  obtain ⟨h1, h2, h3, h4, h5, h6⟩ := admInv_reachable limit s h
  refine ⟨by omega, ?_⟩
  intro r hr hb u hu
  exact (h6 r hr).2 u hu hb

/-- C7: in every reachable state, the queue size equals the number of
still-waiting requests (each arrival incremented it once before blocking and
each admission decremented it once), so it is 0 whenever every request has
finished; the max-queue-size value never decreases across a step and always
equals the largest value the queue-size gauge has ever taken. -/
theorem queue_drain_max (limit : Nat) (s s' : AdmState) (h : AdmReachable limit s)
    (hstep : AdmStep limit s s') :
    s.queue_size = (waitingCount s : Int) ∧
    ((∀ r ∈ s.reqs, r.phase = RPhase.finished) → s.queue_size = 0) ∧
    maxSeenVal s.maxSeen ≤ maxSeenVal s'.maxSeen ∧
    (∀ m, s.maxSeen = some m → m = s.gaugeMax) := by
  obtain ⟨h1, h2, h3, h4, h5, h6⟩ := admInv_reachable limit s h
  refine ⟨h2, ?_, ?_, h5⟩
  · intro hall
    have hw : waitingCount s = 0 := by
      refine List.countP_eq_zero.mpr ?_
      intro r hr
      simp [hall r hr]
    omega
  · have hq : (0 : Int) ≤ s.queue_size := by
      rw [h2]
      positivity
    cases hstep with
    | arriveAdmit tNew ht hsem =>
      rcases hms : s.maxSeen with _ | m₀
      · simp [updateMax, hms, maxSeenVal]
        omega
      · simp only [updateMax, hms]
        by_cases hc : s.queue_size + 1 > m₀ <;>
          simp [hc, maxSeenVal] <;>
          omega
    | arriveBlocked tNew ht hsem =>
      rcases hms : s.maxSeen with _ | m₀
      · simp [updateMax, hms, maxSeenVal]
        omega
      · simp only [updateMax, hms]
        by_cases hc : s.queue_size + 1 > m₀ <;>
          simp [hc, maxSeenVal] <;>
          omega
    | admitWaiting tNew l₁ r l₂ ht hsem hreqs hph => simp [maxSeenVal]
    | requestDone tNew l₁ r l₂ ht hreqs hph => simp [maxSeenVal]

/-- A concrete run with bound 1: request A admitted at t=1, request B blocked
at t=2, A finishing at t=3, B admitted at t=4. -/
def admS1 : AdmState :=
  ⟨1, 0, 0, some 1, 1, [⟨1, some 1, false, .executing⟩]⟩

def admS2 : AdmState :=
  ⟨2, 0, 1, some 1, 1, [⟨1, some 1, false, .executing⟩, ⟨2, none, true, .waiting⟩]⟩

def admS3 : AdmState :=
  ⟨3, 1, 1, some 1, 1, [⟨1, some 1, false, .finished⟩, ⟨2, none, true, .waiting⟩]⟩

def admS4 : AdmState :=
  ⟨4, 0, 0, some 1, 1, [⟨1, some 1, false, .finished⟩, ⟨2, some 4, true, .executing⟩]⟩

lemma admStep01 : AdmStep 1 (admInit 1) admS1 := by
  have h := @AdmStep.arriveAdmit 1 (admInit 1) 1
    (by norm_num [admInit]) (by norm_num [admInit])
  convert h using 2 <;> decide

lemma admStep12 : AdmStep 1 admS1 admS2 := by
  have h := @AdmStep.arriveBlocked 1 admS1 2
    (by norm_num [admS1]) (by decide)
  convert h using 2 <;> decide

lemma admStep23 : AdmStep 1 admS2 admS3 := by
  have h := @AdmStep.requestDone 1 admS2 3 []
    ⟨1, some 1, false, .executing⟩ [⟨2, none, true, .waiting⟩]
    (by norm_num [admS2]) (by decide) (by decide)
  convert h using 2 <;> decide

lemma admStep34 : AdmStep 1 admS3 admS4 := by
  have h := @AdmStep.admitWaiting 1 admS3 4
    [⟨1, some 1, false, .finished⟩] ⟨2, none, true, .waiting⟩ []
    (by norm_num [admS3]) (by decide) (by decide) (by decide)
  convert h using 2 <;> decide

lemma admReach1 : AdmReachable 1 admS1 :=
  Relation.ReflTransGen.tail Relation.ReflTransGen.refl admStep01

lemma admReach2 : AdmReachable 1 admS2 :=
  Relation.ReflTransGen.tail admReach1 admStep12

lemma admReach3 : AdmReachable 1 admS3 :=
  Relation.ReflTransGen.tail admReach2 admStep23

lemma admReach4 : AdmReachable 1 admS4 :=
  Relation.ReflTransGen.tail admReach3 admStep34

/-- Witness for C4: a reachable state of the bound-1 run in which the blocked
request's admission time 4 strictly exceeds its arrival time 2. -/
theorem admission_bound_check :
    AdmReachable 1 admS4 ∧
    (activeCount admS4 ≤ 1 ∧
     ∀ r ∈ admS4.reqs, r.blockedOnArrival = true →
       ∀ u, r.admittedAt = some u → r.arrivedAt < u) :=
  ⟨admReach4, admission_bound 1 admS4 admReach4⟩

/-- Witness for C7 on the run's last step: queue size equals the number of
waiting requests, and the max-seen value is stable and equals the gauge
history maximum. -/
theorem queue_drain_max_check :
    AdmReachable 1 admS3 ∧ AdmStep 1 admS3 admS4 ∧
    (admS3.queue_size = (waitingCount admS3 : Int) ∧
     ((∀ r ∈ admS3.reqs, r.phase = RPhase.finished) → admS3.queue_size = 0) ∧
     maxSeenVal admS3.maxSeen ≤ maxSeenVal admS4.maxSeen ∧
     (∀ m, admS3.maxSeen = some m → m = admS3.gaugeMax)) :=
  ⟨admReach3, admStep34, queue_drain_max 1 admS3 admS4 admReach3 admStep34⟩
